import Mathlib

set_option maxHeartbeats 1000000
set_option linter.unusedVariables false

/-! Shallow embedding of the Motorola S-record decoder (srec.go / bytes.go).

Lines are modelled as `List Char` (Go's `strings.Split(line, "")`).
Machine integers (`uint32`, `byte`) are `Nat` with explicit `% 2^32` / `% 256`
where Go arithmetic wraps; Go `int` indices are `Int`.
A Go function returning `error` becomes `Except GoErr _`; a Go runtime panic
(slice index out of range) is modelled by the distinguished error `GoErr.oob`,
since it likewise aborts the computation but is not a returned error value.
State-mutating methods on `*Srec` thread the receiver explicitly and return
the final state together with the result, because Go mutations performed
before a failure remain visible on the receiver. -/

/-- Error outcomes.  Each constructor stands for one Go error message
(or a runtime panic):
`notSrectype` = "%s is not srectype.",
`invalidSyntax` / `valueOutOfRange` = `strconv.ParseUint` failures,
`emptyData` = "byte data is empty. …",
`notAscending` = "Address is not acending order.",
`outOfSrecRange` = "data address 0x%08X is out of srec range.",
`oob` = runtime panic "index out of range". -/
inductive GoErr where
  | notSrectype
  | invalidSyntax
  | valueOutOfRange
  | emptyData
  | notAscending
  | outOfSrecRange
  | oob
  deriving DecidableEq, Repr

instance exceptDecEq {ε α : Type} [DecidableEq ε] [DecidableEq α] : DecidableEq (Except ε α) :=
  fun x y =>
    match x, y with
    | .ok a, .ok b =>
      if h : a = b then isTrue (by rw [h]) else isFalse (fun hh => h (Except.ok.inj hh))
    | .ok _, .error _ => isFalse (fun hh => Except.noConfusion hh)
    | .error _, .ok _ => isFalse (fun hh => Except.noConfusion hh)
    | .error e, .error f =>
      if h : e = f then isTrue (by rw [h]) else isFalse (fun hh => h (Except.error.inj hh))

/-- `2^32`, the modulus of Go's `uint32` arithmetic (written as a numeral
so that linear arithmetic can use it directly). -/
def u32 : Nat := 4294967296

def TypeFieldStrLen : Nat := 2

def LengthFieldStrLen : Nat := 2

def CSumFieldStrLen : Nat := 2

/-- Go slice expression `sl[i:j]`: panics unless `i ≤ j ≤ len(sl)`. -/
def goSlice (sl : List Char) (i j : Nat) : Except GoErr (List Char) :=
  if i ≤ j ∧ j ≤ sl.length then .ok ((sl.drop i).take (j - i)) else .error .oob

def hexDigitVal (c : Char) : Option Nat :=
  if '0' ≤ c ∧ c ≤ '9' then some (c.toNat - '0'.toNat)
  else if 'a' ≤ c ∧ c ≤ 'f' then some (c.toNat - 'a'.toNat + 10)
  else if 'A' ≤ c ∧ c ≤ 'F' then some (c.toNat - 'A'.toNat + 10)
  else none

def hexValAux (acc : Nat) : List Char → Option Nat
  | [] => some acc
  | c :: cs =>
    match hexDigitVal c with
    | none => none
    | some d => hexValAux (acc * 16 + d) cs

/-- `strconv.ParseUint(s, 16, 32)`: fails on the empty string, on any
non-hex character, and on values that do not fit in 32 bits. -/
def parseUint32 (cs : List Char) : Except GoErr Nat :=
  if cs.isEmpty then .error .invalidSyntax
  else
    match hexValAux 0 cs with
    | none => .error .invalidSyntax
    | some v => if v < u32 then .ok v else .error .valueOutOfRange

structure headerRecord where
  length : Nat
  data : List Nat
  checksum : Nat
  deriving DecidableEq, Repr, Inhabited

structure dataRecord where
  srectype : String
  length : Nat
  address : Nat
  data : List Nat
  checksum : Nat
  deriving DecidableEq, Repr, Inhabited

structure footerRecord where
  srectype : String
  entryAddr : Nat
  checksum : Nat
  deriving DecidableEq, Repr, Inhabited

structure Srec where
  headerRecord : Option headerRecord
  dataRecords : List dataRecord
  footerRecord : Option footerRecord
  startAddress : Nat
  endAddress : Nat
  dataBytes : List Nat
  deriving DecidableEq, Repr

def NewSrec : Srec :=
  { headerRecord := none, dataRecords := [], footerRecord := none,
    startAddress := 0, endAddress := 0, dataBytes := [] }

/-- `getAddrLenAsStr` from srec.go. -/
def getAddrLenAsStr (srectype : String) : Except GoErr Nat :=
  if srectype = "S0" then .ok 4
  else if srectype = "S1" then .ok 4
  else if srectype = "S2" then .ok 6
  else if srectype = "S3" then .ok 8
  else .error .notSrectype

/-- `getDataLenAsStr` from srec.go: `int(len * 2)` for the length byte. -/
def getDataLenAsStr (sl : List Char) : Except GoErr Nat := do
  let s ← goSlice sl 2 4
  let v ← parseUint32 s
  pure (v * 2)

/-- `getLengh` from srec.go. -/
def getLengh (sl : List Char) : Except GoErr Nat := do
  let s ← goSlice sl 2 4
  parseUint32 s

/-- `getAddress` from srec.go. -/
def getAddress (srectype : String) (sl : List Char) : Except GoErr Nat := do
  let addrLenAsStr ← getAddrLenAsStr srectype
  let s ← goSlice sl 4 (4 + addrLenAsStr)
  parseUint32 s

/-- The data loop of `getData`: `for i := St; i < Ed; i += 2`, reading the
hex byte `sl[i:i+2]` each time.  `Ed` is a Go `int` and may lie below the
start index, in which case no iteration runs; the number of iterations is
`⌈(Ed - i) / 2⌉`, computed up front so the recursion is structural. -/
def readPairsAux (sl : List Char) (i : Nat) : Nat → Except GoErr (List Nat)
  | 0 => pure []
  | fuel + 1 => do
    let s ← goSlice sl i (i + 2)
    let b ← parseUint32 s
    let rest ← readPairsAux sl (i + 2) fuel
    pure (b % 256 :: rest)

def readPairs (sl : List Char) (i : Nat) (ed : Int) : Except GoErr (List Nat) :=
  readPairsAux sl i (((ed - (i : Int)).toNat + 1) / 2)

/-- `getData` from srec.go. -/
def getData (srectype : String) (sl : List Char) : Except GoErr (List Nat) := do
  let addrLenAsStr ← getAddrLenAsStr srectype
  let dataLenAsStr ← getDataLenAsStr sl
  let DataIndexSt := TypeFieldStrLen + LengthFieldStrLen + addrLenAsStr
  let DataIndexEd : Int :=
    ((TypeFieldStrLen + LengthFieldStrLen : Nat) : Int) +
      ((dataLenAsStr : Int) - (CSumFieldStrLen : Int))
  readPairs sl DataIndexSt DataIndexEd

/-- `getChecksum` from srec.go (its `srectype` parameter is unused there too). -/
def getChecksum (srectype : String) (sl : List Char) : Except GoErr Nat := do
  let dataLenAsStr ← getDataLenAsStr sl
  let s ← goSlice sl (TypeFieldStrLen + LengthFieldStrLen + dataLenAsStr - CSumFieldStrLen)
      (TypeFieldStrLen + LengthFieldStrLen + dataLenAsStr)
  let v ← parseUint32 s
  pure (v % 256)

/-- `getHeaderRecordFields` from srec.go. -/
def getHeaderRecordFields (sl : List Char) : Except GoErr headerRecord := do
  let srectype := "S0"
  let len ← getLengh sl
  let data ← getData srectype sl
  let csum ← getChecksum srectype sl
  pure { length := len, data := data, checksum := csum }

/-- `getDataRecordFields` from srec.go. -/
def getDataRecordFields (srectype : String) (sl : List Char) : Except GoErr dataRecord := do
  let len ← getLengh sl
  let addr ← getAddress srectype sl
  let data ← getData srectype sl
  let csum ← getChecksum srectype sl
  pure { srectype := srectype, length := len, address := addr, data := data, checksum := csum }

/-- One iteration of the scanner loop in `ParseFile`: classify the line by
its 2-character tag (`splitedLine[:2]`, which panics on shorter lines) and
dispatch.  `S7`–`S9` and the `default` branch (`// pass S4~6`) do nothing. -/
def parseLine (srs : Srec) (line : List Char) : Except GoErr Srec := do
  let tagChars ← goSlice line 0 2
  let srectype := String.mk tagChars
  if srectype = "S0" then do
    let r ← getHeaderRecordFields line
    pure { srs with headerRecord := some r }
  else if srectype = "S1" ∨ srectype = "S2" ∨ srectype = "S3" then do
    let r ← getDataRecordFields srectype line
    pure { srs with dataRecords := srs.dataRecords ++ [r] }
  else if srectype = "S7" ∨ srectype = "S8" ∨ srectype = "S9" then
    pure srs
  else
    pure srs

/-- The scanner loop of `ParseFile`.  On the first error the loop returns;
all mutations made for earlier lines stay on the receiver. -/
def parseLines (srs : Srec) : List (List Char) → Srec × Except GoErr Unit
  | [] => (srs, .ok ())
  | l :: ls =>
    match parseLine srs l with
    | .error e => (srs, .error e)
    | .ok srs2 => parseLines srs2 ls

/-- `isDataRecordExists` from srec.go. -/
def isDataRecordExists (sr : Srec) : Except GoErr Unit :=
  if sr.dataRecords.length = 0 then .error .emptyData else .ok ()

/-- The loop body of `isAddrAcending`, faithful to the source: `prevAddr`
starts zero-valued, and the `i == 0` iteration `continue`s WITHOUT storing
the first record's address into `prevAddr`. -/
def isAddrAcendingLoop (prevAddr : Nat) (i : Nat) : List dataRecord → Except GoErr Unit
  | [] => .ok ()
  | brec :: rest =>
    if i = 0 then isAddrAcendingLoop prevAddr (i + 1) rest
    else if brec.address < prevAddr then .error .notAscending
    else isAddrAcendingLoop brec.address (i + 1) rest

/-- `isAddrAcending` from srec.go. -/
def isAddrAcending (sr : Srec) : Except GoErr Unit :=
  isAddrAcendingLoop 0 0 sr.dataRecords

/-- `getStartAddr` from srec.go (`dataRecords[0].address`; only called after
the non-emptiness check, so the default is unreachable there). -/
def getStartAddr (sr : Srec) : Nat :=
  (sr.dataRecords.headD default).address

/-- `getEndAddr` from srec.go (`dataRecords[len-1].address`). -/
def getEndAddr (sr : Srec) : Nat :=
  (sr.dataRecords.getLastD default).address

/-- `getLastRecordDataLen` from srec.go. -/
def getLastRecordDataLen (sr : Srec) : Nat :=
  (sr.dataRecords.getLastD default).data.length

/-- `uint32` subtraction (wraps modulo `2^32`); both arguments are `< 2^32`. -/
def u32sub (a b : Nat) : Nat := (u32 + a - b) % u32

/-- Go assignment `sr.dataBytes[idx] = v` with an `int` index: panics unless
`0 ≤ idx < len`. -/
def setAt (buf : List Nat) (idx : Int) (v : Nat) : Except GoErr (List Nat) :=
  if 0 ≤ idx ∧ idx < (buf.length : Int) then .ok (buf.set idx.toNat v) else .error .oob

/-- Inner loop of `makePaddedBytes` for one record: for each data byte,
first re-check `brcs.address` against the receiver's start/end addresses
(the check sits inside the loop, so records with no data skip it), then
write at `int(brcs.address) - ofst + i`.  The buffer mutated so far is
returned even on failure. -/
def writeRecordLoop (sA eA : Nat) (ofst : Int) (addr : Nat) :
    List Nat → Int → List Nat → List Nat × Except GoErr Unit
  | [], _, buf => (buf, .ok ())
  | b :: bs, i, buf =>
    if addr < sA ∨ addr > eA then (buf, .error .outOfSrecRange)
    else
      match setAt buf ((addr : Int) - ofst + i) b with
      | .error e => (buf, .error e)
      | .ok buf2 => writeRecordLoop sA eA ofst addr bs (i + 1) buf2

/-- Outer loop of `makePaddedBytes` over the data records, in file order. -/
def makePaddedBytesLoop (sA eA : Nat) (ofst : Int) :
    List dataRecord → List Nat → List Nat × Except GoErr Unit
  | [], buf => (buf, .ok ())
  | r :: rs, buf =>
    match writeRecordLoop sA eA ofst r.address r.data 0 buf with
    | (buf2, .ok _) => makePaddedBytesLoop sA eA ofst rs buf2
    | (buf2, .error e) => (buf2, .error e)

/-- `makePaddedBytes` from srec.go: append `size = (endAddr - startAddr) +
lastRecordDataLen` (uint32 arithmetic) sentinel `0xFF` bytes to the
receiver's buffer, then copy every record's data at offset
`int(address) - int(startAddr)`. -/
def makePaddedBytes (sr : Srec) (startAddr endAddr lastRecordDataLen : Nat) :
    Srec × Except GoErr Unit :=
  let size := (u32sub endAddr startAddr + lastRecordDataLen) % u32
  let buf0 := sr.dataBytes ++ List.replicate size 0xFF
  let res := makePaddedBytesLoop sr.startAddress sr.endAddress (startAddr : Int) sr.dataRecords buf0
  ({ sr with dataBytes := res.1 }, res.2)

/-- `ParseFile` from srec.go: scan all lines, check a data record exists,
check address ordering, derive start/end addresses, assemble the padded
buffer.  The (possibly partially mutated) receiver is returned with the
result. -/
def ParseFile (srs : Srec) (lines : List (List Char)) : Srec × Except GoErr Unit :=
  match parseLines srs lines with
  | (s, .error e) => (s, .error e)
  | (s, .ok _) =>
    match isDataRecordExists s with
    | .error e => (s, .error e)
    | .ok _ =>
      match isAddrAcending s with
      | .error e => (s, .error e)
      | .ok _ =>
        let s2 := { s with startAddress := getStartAddr s, endAddress := getEndAddr s }
        let LastRecordDatalen := getLastRecordDataLen s2
        makePaddedBytes s2 s2.startAddress s2.endAddress LastRecordDatalen

/-- `Bytes` from srec.go / bytes.go. -/
def Bytes (sr : Srec) : List Nat := sr.dataBytes

/-- The write loop of `SetBytes`: `sr.dataBytes[start+i] = wBytes[i]`. -/
def SetBytesLoop : List Nat → Int → List Nat → List Nat × Except GoErr Unit
  | [], _, buf => (buf, .ok ())
  | b :: bs, idx, buf =>
    match setAt buf idx b with
    | .error e => (buf, .error e)
    | .ok buf2 => SetBytesLoop bs (idx + 1) buf2

/-- `SetBytes` from srec.go / bytes.go: reject an empty record list, reject
a start address outside `[startAddress, endAddress]`, then copy `wBytes`
into the buffer starting at `int(wAddr) - int(startAddress)`.  No check is
made that the write's upper end fits in the buffer. -/
def SetBytes (sr : Srec) (wAddr : Nat) (wBytes : List Nat) : Srec × Except GoErr Unit :=
  if sr.dataRecords.length = 0 then (sr, .error .emptyData)
  else if wAddr < sr.startAddress ∨ wAddr > sr.endAddress then (sr, .error .outOfSrecRange)
  else
    let res := SetBytesLoop wBytes ((wAddr : Int) - (sr.startAddress : Int)) sr.dataBytes
    ({ sr with dataBytes := res.1 }, res.2)

/-! Specification vocabulary used to state the claims: which buffer offset a
data record covers, and which byte the last covering record (in file order)
contributes. -/

def override {α : Type} (o fb : Option α) : Option α :=
  match o with
  | some v => some v
  | none => fb

/-- The byte a data segment starting at buffer offset `start` (a Go `int`)
contributes at buffer position `p`, if any. -/
def segByteAt (start : Int) (data : List Nat) (p : Nat) : Option Nat :=
  if start ≤ (p : Int) ∧ (p : Int) < start + data.length then
    data[((p : Int) - start).toNat]?
  else none

/-- The byte record `r` contributes at buffer position `p` when copied at
offset `int(r.address) - ofst`, if any. -/
def recByteAt (ofst : Int) (r : dataRecord) (p : Nat) : Option Nat :=
  segByteAt ((r.address : Int) - ofst) r.data p

/-- The byte contributed at position `p` by the LAST record in file order
that covers `p` (later records override earlier ones), if any record does. -/
def lastCoverByte (ofst : Int) (p : Nat) : List dataRecord → Option Nat
  | [] => none
  | r :: rs => override (lastCoverByte ofst p rs) (recByteAt ofst r p)

/-- Addresses are non-decreasing across the record list in file order
(what the spec means by "ascending"). -/
def addrsNonDecreasing : List dataRecord → Bool
  | [] => true
  | [_] => true
  | a :: b :: t => decide (a.address ≤ b.address) && addrsNonDecreasing (b :: t)

/-- Concrete test file: two one-byte records at addresses 0 and 2, leaving
a one-byte gap at address 1. -/
def fileGap : List (List Char) := ["S1040000AA51".toList, "S1040002BB4E".toList]

/-- The first record of `fileGap` as decoded. -/
def recA : dataRecord :=
  { srectype := "S1", length := 4, address := 0, data := [0xAA], checksum := 0x51 }

/-- Concrete test file with overlapping records: a two-byte record at
address 0 and a one-byte record at address 1 (addresses non-decreasing,
so the ordering check accepts it). -/
def fileOverlap : List (List Char) := ["S1050000AAAB51".toList, "S1040001BB3F".toList]

/-- The first record of `fileOverlap` as decoded. -/
def recOv1 : dataRecord :=
  { srectype := "S1", length := 5, address := 0, data := [0xAA, 0xAB], checksum := 0x51 }

/-- The second record of `fileOverlap` as decoded. -/
def recOv2 : dataRecord :=
  { srectype := "S1", length := 4, address := 1, data := [0xBB], checksum := 0x3F }

/-- A small concrete assembled image (one data record, 4 buffer bytes),
used to witness the `SetBytes` claims. -/
def sampleImage : Srec :=
  { headerRecord := none,
    dataRecords := [{ srectype := "S1", length := 4, address := 0, data := [1], checksum := 0 }],
    footerRecord := none,
    startAddress := 0,
    endAddress := 3,
    dataBytes := [1, 2, 3, 4] }

/-! Concrete evidence theorems.  Input lines are written as string literals
and split into characters exactly as the scanner does. -/

/-- Claim C1 (code bug evidence): a two-record file whose data-record
addresses are `[0x0100, 0x0050]` — not non-decreasing — is NOT rejected by
the ordering check.  After scanning the two lines, `isAddrAcending`
returns no error, because its `i == 0` iteration `continue`s without
storing the first record's address into `prevAddr`, so the first pair of
records is never compared.  The claim (and the function's own name and
error message) say the first violation must fail with "addresses not
ascending". -/
theorem claim_C1_ordering_check_misses_first_violation :
    (parseLines NewSrec ["S1040100AB27".toList, "S1040050CD5E".toList]).2 = .ok () ∧
    ((parseLines NewSrec ["S1040100AB27".toList, "S1040050CD5E".toList]).1.dataRecords.map
        (fun r => r.address)) = [0x0100, 0x0050] ∧
    ¬ addrsNonDecreasing
        (parseLines NewSrec ["S1040100AB27".toList, "S1040050CD5E".toList]).1.dataRecords ∧
    isAddrAcending (parseLines NewSrec ["S1040100AB27".toList, "S1040050CD5E".toList]).1 =
      .ok () := by
  refine ⟨rfl, rfl, by decide, rfl⟩

/-- Claim C2 (counterexample): a file containing a line with the
unrecognized 2-character tag `XY` parses successfully — the line is
silently skipped by the `default` branch, and no "not a valid record
type" error exists in the code.  The claim says `ParseFile` must fail on
such a file. -/
theorem claim_C2_counterexample :
    (ParseFile NewSrec ["XY".toList, "S1050000414223".toList]).2 = .ok () ∧
    (ParseFile NewSrec ["XY".toList, "S1050000414223".toList]).1.dataRecords.length = 1 := by
  exact ⟨rfl, rfl⟩

/-- Claim C4 (counterexample): two data records at the same address 0 (the
ordering check permits equal consecutive addresses) with different data
bytes `0xAA` and `0xBB`.  Assembly succeeds, and the buffer byte at the
first record's offset `(address - startAddress) + 0 = 0` is `0xBB`, the
second record's byte — NOT the first record's `0xAA` as the claim states
for every record. -/
theorem claim_C4_counterexample :
    (ParseFile NewSrec ["S1040000AA51".toList, "S1040000BB4E".toList]).2 = .ok () ∧
    (ParseFile NewSrec ["S1040000AA51".toList, "S1040000BB4E".toList]).1.dataRecords[0]? =
      some { srectype := "S1", length := 4, address := 0, data := [0xAA], checksum := 0x51 } ∧
    (ParseFile NewSrec ["S1040000AA51".toList, "S1040000BB4E".toList]).1.startAddress = 0 ∧
    (Bytes (ParseFile NewSrec ["S1040000AA51".toList, "S1040000BB4E".toList]).1)[0]? =
      some 0xBB ∧
    (Bytes (ParseFile NewSrec ["S1040000AA51".toList, "S1040000BB4E".toList]).1)[0]? ≠
      some 0xAA := by
  refine ⟨rfl, rfl, rfl, rfl, by decide⟩

/-- Claim C6 (counterexample): the line `S1040000AA` is two characters
shorter than its declared length byte `0x04` implies (12 characters).
Decoding its fields does not return a field-naming decode error: it
aborts with an index-out-of-range access (`GoErr.oob`), because
`getChecksum` slices characters `[10,12)` of a 10-character line.  The
claim says a short line fails with a returned decode error and that
decoding never accesses characters outside the line. -/
theorem claim_C6_counterexample :
    getDataRecordFields "S1" "S1040000AA".toList = .error .oob := by
  rfl

/-- Claim C7 (counterexample): a file whose first line is a valid data
record and whose second line has a non-hex address character fails to
parse — but the failed `ParseFile` leaves the first decoded record
observable on the `Srec` value.  The claim says a failed parse discards
all state. -/
theorem claim_C7_counterexample :
    (ParseFile NewSrec ["S1040000AA51".toList, "S104000GAA51".toList]).2 =
      .error .invalidSyntax ∧
    (ParseFile NewSrec ["S1040000AA51".toList, "S104000GAA51".toList]).1.dataRecords =
      [{ srectype := "S1", length := 4, address := 0, data := [0xAA], checksum := 0x51 }] := by
  exact ⟨rfl, rfl⟩

/-! Helper lemmas: the `Except GoErr` monad, and the `SetBytes` write loop. -/

theorem exbind_ok {α β : Type} (a : α) (f : α → Except GoErr β) :
    (Except.ok a >>= f) = f a := rfl

theorem exbind_error {α β : Type} (e : GoErr) (f : α → Except GoErr β) :
    ((Except.error e : Except GoErr α) >>= f) = Except.error e := rfl

theorem SetBytesLoop_length (w : List Nat) : ∀ (idx : Int) (buf : List Nat),
    ((SetBytesLoop w idx buf).1).length = buf.length := by
  induction w with
  | nil => intro idx buf; rfl
  | cons b bs ih =>
    intro idx buf
    simp only [SetBytesLoop, setAt]
    split
    · rfl
    · rename_i buf2 heq
      split at heq
      · injection heq with h
        subst h
        rw [ih]; simp
      · exact Except.noConfusion heq

theorem SetBytesLoop_ok (w : List Nat) : ∀ (idx : Int) (buf : List Nat),
    0 ≤ idx → idx.toNat + w.length ≤ buf.length →
    (SetBytesLoop w idx buf).2 = .ok () ∧
    ∀ p : Nat, ((SetBytesLoop w idx buf).1)[p]? =
      if idx.toNat ≤ p ∧ p < idx.toNat + w.length then w[p - idx.toNat]? else buf[p]? := by
  induction w with
  | nil =>
    intro idx buf h0 hfit
    refine ⟨rfl, fun p => ?_⟩
    rw [if_neg (by simp only [List.length_nil]; omega)]
    rfl
  | cons b bs ih =>
    intro idx buf h0 hfit
    simp only [List.length_cons] at hfit
    have hlt : idx.toNat < buf.length := by omega
    have hsa : setAt buf idx b = .ok (buf.set idx.toNat b) := by
      simp only [setAt]; rw [if_pos (by constructor <;> omega)]
    simp only [SetBytesLoop, hsa]
    have h1 : (0 : Int) ≤ idx + 1 := by omega
    have h2 : (idx + 1).toNat + bs.length ≤ (buf.set idx.toNat b).length := by
      simp only [List.length_set]; omega
    obtain ⟨hok, hget⟩ := ih (idx + 1) (buf.set idx.toNat b) h1 h2
    refine ⟨hok, fun p => ?_⟩
    rw [hget p]
    by_cases hp : p = idx.toNat
    · subst hp
      have c1 : ¬((idx + 1).toNat ≤ idx.toNat ∧ idx.toNat < (idx + 1).toNat + bs.length) := by
        omega
      have c2 : idx.toNat ≤ idx.toNat ∧ idx.toNat < idx.toNat + (b :: bs).length := by
        simp only [List.length_cons]; omega
      rw [if_neg c1, if_pos c2, List.getElem?_set_self hlt]
      simp
    · by_cases hp2 : idx.toNat + 1 ≤ p ∧ p < idx.toNat + 1 + bs.length
      · have c1 : (idx + 1).toNat ≤ p ∧ p < (idx + 1).toNat + bs.length := by omega
        have c2 : idx.toNat ≤ p ∧ p < idx.toNat + (b :: bs).length := by
          simp only [List.length_cons]; omega
        rw [if_pos c1, if_pos c2]
        have hsub : p - idx.toNat = (p - (idx + 1).toNat) + 1 := by omega
        rw [hsub, List.getElem?_cons_succ]
      · have c1 : ¬((idx + 1).toNat ≤ p ∧ p < (idx + 1).toNat + bs.length) := by omega
        have c2 : ¬(idx.toNat ≤ p ∧ p < idx.toNat + (b :: bs).length) := by
          simp only [List.length_cons]; omega
        rw [if_neg c1, if_neg c2, List.getElem?_set_ne (Ne.symm hp)]

theorem SetBytesLoop_past_end (w : List Nat) : ∀ (idx : Int) (buf : List Nat),
    0 ≤ idx → w ≠ [] → buf.length < idx.toNat + w.length →
    (SetBytesLoop w idx buf).2 = .error .oob := by
  induction w with
  | nil => intro idx buf h0 hne hover; exact absurd rfl hne
  | cons b bs ih =>
    intro idx buf h0 hne hover
    simp only [List.length_cons] at hover
    by_cases hlt : idx.toNat < buf.length
    · have hsa : setAt buf idx b = .ok (buf.set idx.toNat b) := by
        simp only [setAt]; rw [if_pos (by constructor <;> omega)]
      simp only [SetBytesLoop, hsa]
      have hbs : bs ≠ [] := by
        intro hnil
        subst hnil
        simp only [List.length_nil] at hover
        omega
      exact ih (idx + 1) (buf.set idx.toNat b) (by omega) hbs
        (by simp only [List.length_set]; omega)
    · have hsa : setAt buf idx b = .error .oob := by
        simp only [setAt]; rw [if_neg (by omega)]
      simp only [SetBytesLoop, hsa]

/-- Claim C8: for an assembled image (non-empty record list), `SetBytes`
with a start address outside `[startAddress, endAddress]` fails with the
range error and changes nothing; with a start address inside the range and
a write that fits the buffer, it succeeds, overwrites exactly the
`wBytes.length` bytes starting at offset `wAddr - startAddress`, and
leaves every other buffer byte (and every other field) unchanged. -/
theorem claim_C8_setbytes (sr : Srec) (wAddr : Nat) (wBytes : List Nat)
    (hne : sr.dataRecords ≠ []) :
    ((wAddr < sr.startAddress ∨ wAddr > sr.endAddress) →
      SetBytes sr wAddr wBytes = (sr, .error .outOfSrecRange)) ∧
    (sr.startAddress ≤ wAddr → wAddr ≤ sr.endAddress →
      wAddr - sr.startAddress + wBytes.length ≤ sr.dataBytes.length →
      (SetBytes sr wAddr wBytes).2 = .ok () ∧
      (SetBytes sr wAddr wBytes).1.dataRecords = sr.dataRecords ∧
      (SetBytes sr wAddr wBytes).1.startAddress = sr.startAddress ∧
      (SetBytes sr wAddr wBytes).1.endAddress = sr.endAddress ∧
      ((SetBytes sr wAddr wBytes).1.dataBytes).length = sr.dataBytes.length ∧
      ∀ p : Nat, ((SetBytes sr wAddr wBytes).1.dataBytes)[p]? =
        if wAddr - sr.startAddress ≤ p ∧ p < wAddr - sr.startAddress + wBytes.length
        then wBytes[p - (wAddr - sr.startAddress)]?
        else sr.dataBytes[p]?) := by
  have hlen : ¬ sr.dataRecords.length = 0 := by
    simpa [List.length_eq_zero] using hne
  constructor
  · intro hout
    simp only [SetBytes]
    rw [if_neg hlen, if_pos hout]
  · intro h1 h2 hfit
    have hnout : ¬(wAddr < sr.startAddress ∨ wAddr > sr.endAddress) := by omega
    have hidx : ((wAddr : Int) - (sr.startAddress : Int)).toNat = wAddr - sr.startAddress := by
      omega
    have h0 : (0 : Int) ≤ (wAddr : Int) - (sr.startAddress : Int) := by omega
    obtain ⟨hok, hget⟩ := SetBytesLoop_ok wBytes ((wAddr : Int) - (sr.startAddress : Int))
      sr.dataBytes h0 (by rw [hidx]; exact hfit)
    simp only [SetBytes]
    rw [if_neg hlen, if_neg hnout]
    refine ⟨hok, rfl, rfl, rfl, SetBytesLoop_length _ _ _, fun p => ?_⟩
    rw [hget p, hidx]

/-- Witness for claim C8 on a concrete assembled image: an out-of-range
start address is rejected, an in-range fitting write succeeds. -/
theorem claim_C8_setbytes_witness :
    SetBytes sampleImage 5 [9] = (sampleImage, .error .outOfSrecRange) ∧
    (SetBytes sampleImage 1 [9, 8]).2 = .ok () := by
  constructor
  · exact (claim_C8_setbytes sampleImage 5 [9] (by decide)).1 (by right; decide)
  · exact ((claim_C8_setbytes sampleImage 1 [9, 8] (by decide)).2
      (by decide) (by decide) (by decide)).1

/-- Claim C9: `SetBytes` never checks the upper end of a multi-byte write:
whenever the start address lies in `[startAddress, endAddress]` (and the
image is assembled), validation passes even if the write extends past the
end of the dense buffer — the call then attempts an out-of-bounds write
(`GoErr.oob`, the modelled runtime panic), rather than returning the
range error. -/
theorem claim_C9_setbytes_upper_bound_unchecked (sr : Srec) (wAddr : Nat) (wBytes : List Nat)
    (hne : sr.dataRecords ≠ []) (h1 : sr.startAddress ≤ wAddr) (h2 : wAddr ≤ sr.endAddress)
    (hnb : wBytes ≠ [])
    (hover : sr.dataBytes.length < wAddr - sr.startAddress + wBytes.length) :
    (SetBytes sr wAddr wBytes).2 = .error .oob := by
  have hlen : ¬ sr.dataRecords.length = 0 := by
    simpa [List.length_eq_zero] using hne
  have hnout : ¬(wAddr < sr.startAddress ∨ wAddr > sr.endAddress) := by omega
  have hidx : ((wAddr : Int) - (sr.startAddress : Int)).toNat = wAddr - sr.startAddress := by
    omega
  simp only [SetBytes]
  rw [if_neg hlen, if_neg hnout]
  exact SetBytesLoop_past_end wBytes _ sr.dataBytes (by omega) hnb (by rw [hidx]; exact hover)

/-- Witness for claim C9: a 2-byte write starting at the last in-range
address of a 4-byte image passes validation and aborts out of bounds. -/
theorem claim_C9_witness :
    (SetBytes sampleImage 3 [7, 7]).2 = .error .oob :=
  claim_C9_setbytes_upper_bound_unchecked sampleImage 3 [7, 7] (by decide) (by decide)
    (by decide) (by decide) (by decide)

/-! Inversion lemmas for the field decoders. -/

theorem parseUint32_lt (cs : List Char) (v : Nat) (h : parseUint32 cs = .ok v) : v < u32 := by
  simp only [parseUint32] at h
  split at h
  · exact Except.noConfusion h
  · split at h
    · exact Except.noConfusion h
    · split at h
      · injection h with h'
        subst h'
        assumption
      · exact Except.noConfusion h

theorem getAddress_lt (srectype : String) (sl : List Char) (a : Nat)
    (h : getAddress srectype sl = .ok a) : a < u32 := by
  simp only [getAddress] at h
  cases hal : getAddrLenAsStr srectype with
  | error e => rw [hal, exbind_error] at h; exact Except.noConfusion h
  | ok n =>
    rw [hal, exbind_ok] at h
    cases hgs : goSlice sl 4 (4 + n) with
    | error e => rw [hgs, exbind_error] at h; exact Except.noConfusion h
    | ok s => rw [hgs, exbind_ok] at h; exact parseUint32_lt s a h

theorem getDataRecordFields_address_lt (srectype : String) (sl : List Char) (r : dataRecord)
    (h : getDataRecordFields srectype sl = .ok r) : r.address < u32 := by
  simp only [getDataRecordFields] at h
  cases h1 : getLengh sl with
  | error e => rw [h1, exbind_error] at h; exact Except.noConfusion h
  | ok len =>
    rw [h1, exbind_ok] at h
    cases h2 : getAddress srectype sl with
    | error e => rw [h2, exbind_error] at h; exact Except.noConfusion h
    | ok addr =>
      rw [h2, exbind_ok] at h
      cases h3 : getData srectype sl with
      | error e => rw [h3, exbind_error] at h; exact Except.noConfusion h
      | ok data =>
        rw [h3, exbind_ok] at h
        cases h4 : getChecksum srectype sl with
        | error e => rw [h4, exbind_error] at h; exact Except.noConfusion h
        | ok csum =>
          rw [h4, exbind_ok] at h
          injection h with h'
          subst h'
          exact getAddress_lt srectype sl addr h2

theorem getDataLenAsStr_of_getLengh (sl : List Char) (L : Nat)
    (hL : getLengh sl = .ok L) : getDataLenAsStr sl = .ok (L * 2) := by
  simp only [getLengh] at hL
  cases hg : goSlice sl 2 4 with
  | error e => rw [hg, exbind_error] at hL; exact Except.noConfusion hL
  | ok s =>
    rw [hg, exbind_ok] at hL
    simp only [getDataLenAsStr]
    rw [hg, exbind_ok, hL, exbind_ok]
    rfl

theorem getChecksum_short (srectype : String) (sl : List Char) (d : Nat)
    (hd : getDataLenAsStr sl = .ok d) (hshort : sl.length < 4 + d) :
    getChecksum srectype sl = .error .oob := by
  simp only [getChecksum]
  rw [hd, exbind_ok]
  have hgs : goSlice sl (TypeFieldStrLen + LengthFieldStrLen + d - CSumFieldStrLen)
      (TypeFieldStrLen + LengthFieldStrLen + d) = .error .oob := by
    simp only [goSlice, TypeFieldStrLen, LengthFieldStrLen, CSumFieldStrLen]
    rw [if_neg (by omega)]
  rw [hgs, exbind_error]

/-- Claim C6 (amended): a line shorter than its declared length byte
implies does NOT decode successfully — it either returns a field decode
error or aborts with an out-of-bounds character access (the modelled
runtime panic), since the checksum field read slices characters
`[2*length + 2, 2*length + 4)`, which lie outside the line. -/
theorem claim_C6_length_mismatch (srectype : String) (sl : List Char) (L : Nat)
    (hL : getLengh sl = .ok L) (hshort : sl.length < 4 + 2 * L) :
    ∃ e, getDataRecordFields srectype sl = .error e := by
  have hd := getDataLenAsStr_of_getLengh sl L hL
  have hcs := getChecksum_short srectype sl (L * 2) hd (by omega)
  simp only [getDataRecordFields]
  rw [hL, exbind_ok]
  cases ha : getAddress srectype sl with
  | error e => rw [exbind_error]; exact ⟨e, rfl⟩
  | ok a =>
    rw [exbind_ok]
    cases hdt : getData srectype sl with
    | error e => rw [exbind_error]; exact ⟨e, rfl⟩
    | ok data =>
      rw [exbind_ok, hcs, exbind_error]
      exact ⟨.oob, rfl⟩

/-- Witness for claim C6 (amended): the 10-character line `S1040000AA`
declares length `0x04` (so 12 characters) and fails to decode. -/
theorem claim_C6_witness :
    getLengh "S1040000AA".toList = .ok 4 ∧
    "S1040000AA".toList.length < 4 + 2 * 4 ∧
    ∃ e, getDataRecordFields "S1" "S1040000AA".toList = .error e :=
  ⟨rfl, by decide, claim_C6_length_mismatch "S1" "S1040000AA".toList 4 rfl (by decide)⟩

/-! Lemmas on the scanner loop. -/

theorem parseLine_ok_state (srs : Srec) (line : List Char) (s2 : Srec)
    (h : parseLine srs line = .ok s2) :
    s2.dataBytes = srs.dataBytes ∧ s2.startAddress = srs.startAddress ∧
    s2.endAddress = srs.endAddress ∧
    (s2.dataRecords = srs.dataRecords ∨
      ∃ r, s2.dataRecords = srs.dataRecords ++ [r] ∧ r.address < u32) := by
  simp only [parseLine] at h
  cases hgs : goSlice line 0 2 with
  | error e => rw [hgs, exbind_error] at h; exact Except.noConfusion h
  | ok tag =>
    rw [hgs, exbind_ok] at h
    by_cases h0 : String.mk tag = "S0"
    · rw [if_pos h0] at h
      cases hh : getHeaderRecordFields line with
      | error e => rw [hh, exbind_error] at h; exact Except.noConfusion h
      | ok r =>
        rw [hh, exbind_ok] at h
        injection h with h'
        subst h'
        exact ⟨rfl, rfl, rfl, Or.inl rfl⟩
    · rw [if_neg h0] at h
      by_cases h123 : String.mk tag = "S1" ∨ String.mk tag = "S2" ∨ String.mk tag = "S3"
      · rw [if_pos h123] at h
        cases hd : getDataRecordFields (String.mk tag) line with
        | error e => rw [hd, exbind_error] at h; exact Except.noConfusion h
        | ok r =>
          rw [hd, exbind_ok] at h
          injection h with h'
          subst h'
          exact ⟨rfl, rfl, rfl,
            Or.inr ⟨r, rfl, getDataRecordFields_address_lt (String.mk tag) line r hd⟩⟩
      · rw [if_neg h123, ite_self] at h
        injection h with h'
        subst h'
        exact ⟨rfl, rfl, rfl, Or.inl rfl⟩

theorem parseLines_ok_state (ls : List (List Char)) : ∀ (srs s : Srec),
    parseLines srs ls = (s, .ok ()) →
    s.dataBytes = srs.dataBytes ∧
    ∀ r ∈ s.dataRecords, r ∈ srs.dataRecords ∨ r.address < u32 := by
  induction ls with
  | nil =>
    intro srs s h
    injection h with h1 h2
    subst h1
    exact ⟨rfl, fun r hr => Or.inl hr⟩
  | cons l ls ih =>
    intro srs s h
    simp only [parseLines] at h
    cases hp : parseLine srs l with
    | error e =>
      rw [hp] at h
      injection h with h1 h2
      exact Except.noConfusion h2
    | ok srs2 =>
      rw [hp] at h
      obtain ⟨hb, _, _, hr⟩ := parseLine_ok_state srs l srs2 hp
      obtain ⟨hb2, hmem⟩ := ih srs2 s h
      refine ⟨hb2.trans hb, fun r hrr => ?_⟩
      rcases hmem r hrr with hin | hlt
      · rcases hr with heq | ⟨r2, heq, hlt2⟩
        · rw [heq] at hin
          exact Or.inl hin
        · rw [heq] at hin
          rcases List.mem_append.mp hin with hmem2 | hmem2
          · exact Or.inl hmem2
          · have hr2 := List.mem_singleton.mp hmem2
            subst hr2
            exact Or.inr hlt2
      · exact Or.inr hlt

theorem parseLines_records_extend (ls : List (List Char)) : ∀ (srs : Srec),
    ∃ tl, ((parseLines srs ls).1).dataRecords = srs.dataRecords ++ tl := by
  induction ls with
  | nil => intro srs; exact ⟨[], by simp [parseLines]⟩
  | cons l ls ih =>
    intro srs
    simp only [parseLines]
    cases hp : parseLine srs l with
    | error e => exact ⟨[], by simp⟩
    | ok srs2 =>
      obtain ⟨_, _, _, hr⟩ := parseLine_ok_state srs l srs2 hp
      obtain ⟨tl, htl⟩ := ih srs2
      rcases hr with heq | ⟨r, heq, _⟩
      · exact ⟨tl, by rw [htl, heq]⟩
      · exact ⟨[r] ++ tl, by rw [htl, heq, List.append_assoc]⟩

theorem ParseFile_dataRecords (srs : Srec) (lines : List (List Char)) :
    ((ParseFile srs lines).1).dataRecords = ((parseLines srs lines).1).dataRecords := by
  unfold ParseFile
  split
  · rename_i s e heq
    rw [heq]
  · rename_i s u heq
    rw [heq]
    split
    · rfl
    · split
      · rfl
      · rfl

/-- Claim C2 (amended): any input line of at least two characters whose
2-character tag is not `S0`, `S1`, `S2` or `S3` is silently ignored by the
scanner loop: the state is unchanged and no error is raised.  This covers
the `S7`–`S9` branch, the `S4`–`S6` comment, and every unrecognized tag —
there is no "not a valid record type" failure. -/
theorem claim_C2_unrecognized_tags_ignored (srs : Srec) (line : List Char)
    (h2 : 2 ≤ line.length)
    (htag : String.mk (line.take 2) ∉ (["S0", "S1", "S2", "S3"] : List String)) :
    parseLine srs line = .ok srs := by
  have hgs : goSlice line 0 2 = .ok (line.take 2) := by
    simp only [goSlice]
    rw [if_pos ⟨by omega, h2⟩]
    rfl
  have h0 : ¬ String.mk (line.take 2) = "S0" := fun h => htag (by rw [h]; decide)
  have h123 : ¬ (String.mk (line.take 2) = "S1" ∨ String.mk (line.take 2) = "S2" ∨
      String.mk (line.take 2) = "S3") := by
    rintro (h | h | h) <;> exact htag (by rw [h]; decide)
  simp only [parseLine]
  rw [hgs, exbind_ok, if_neg h0, if_neg h123, ite_self]
  rfl

/-- Witness for claim C2 (amended): an `S5` (count) line is skipped with
the parser state unchanged. -/
theorem claim_C2_witness :
    2 ≤ "S5030000FC".toList.length ∧
    String.mk ("S5030000FC".toList.take 2) ∉ (["S0", "S1", "S2", "S3"] : List String) ∧
    parseLine NewSrec "S5030000FC".toList = .ok NewSrec :=
  ⟨by decide, by decide,
    claim_C2_unrecognized_tags_ignored NewSrec "S5030000FC".toList (by decide) (by decide)⟩

/-- Claim C7 (amended): a failed `ParseFile` does NOT discard state — the
record list on the returned `Srec` value extends the initial one by
whatever records were appended before the failure, and remains
observable.  (The concrete counterexample shows such a partial record
list is in fact non-empty.) -/
theorem claim_C7_partial_state_kept (srs : Srec) (lines : List (List Char)) (e : GoErr)
    (h : (ParseFile srs lines).2 = .error e) :
    ∃ tl, ((ParseFile srs lines).1).dataRecords = srs.dataRecords ++ tl := by
  rw [ParseFile_dataRecords]
  exact parseLines_records_extend lines srs

/-- Witness for claim C7 (amended), at the counterexample input. -/
theorem claim_C7_witness :
    ∃ tl, ((ParseFile NewSrec ["S1040000AA51".toList, "S104000GAA51".toList]).1).dataRecords =
      NewSrec.dataRecords ++ tl :=
  claim_C7_partial_state_kept NewSrec ["S1040000AA51".toList, "S104000GAA51".toList]
    .invalidSyntax rfl

/-! Lemmas on the padded-buffer assembly loops. -/

theorem setAt_ok (buf : List Nat) (idx : Int) (v : Nat) (buf2 : List Nat)
    (h : setAt buf idx v = .ok buf2) :
    0 ≤ idx ∧ idx < (buf.length : Int) ∧ buf2 = buf.set idx.toNat v := by
  simp only [setAt] at h
  split at h
  · rename_i hc
    injection h with h'
    exact ⟨hc.1, hc.2, h'.symm⟩
  · exact Except.noConfusion h

theorem override_assoc {α : Type} (a b c : Option α) :
    override a (override b c) = override (override a b) c := by
  cases a <;> rfl

theorem segByteAt_cons (st : Int) (b : Nat) (bs : List Nat) (p : Nat) :
    segByteAt st (b :: bs) p =
      if (p : Int) = st then some b else segByteAt (st + 1) bs p := by
  simp only [segByteAt, List.length_cons]
  by_cases hp : (p : Int) = st
  · rw [if_pos hp, if_pos (by push_cast; omega)]
    have h0 : ((p : Int) - st).toNat = 0 := by omega
    rw [h0]
    simp
  · rw [if_neg hp]
    by_cases hc : st + 1 ≤ (p : Int) ∧ (p : Int) < st + 1 + (bs.length : Int)
    · rw [if_pos (by push_cast; omega), if_pos (by omega)]
      have h1 : ((p : Int) - st).toNat = ((p : Int) - (st + 1)).toNat + 1 := by omega
      rw [h1, List.getElem?_cons_succ]
    · rw [if_neg (by push_cast; omega), if_neg (by omega)]

theorem writeRecordLoop_length (sA eA : Nat) (ofst : Int) (addr : Nat) (data : List Nat) :
    ∀ (i : Int) (buf : List Nat),
    ((writeRecordLoop sA eA ofst addr data i buf).1).length = buf.length := by
  induction data with
  | nil => intro i buf; rfl
  | cons b bs ih =>
    intro i buf
    simp only [writeRecordLoop]
    split
    · rfl
    · cases hsa : setAt buf ((addr : Int) - ofst + i) b with
      | error e => rfl
      | ok buf2 =>
        obtain ⟨_, _, hb2⟩ := setAt_ok _ _ _ _ hsa
        subst hb2
        rw [ih]
        simp only [List.length_set]

theorem writeRecordLoop_ok_range (sA eA : Nat) (ofst : Int) (addr : Nat)
    (b : Nat) (bs : List Nat) (i : Int) (buf buf2 : List Nat)
    (h : writeRecordLoop sA eA ofst addr (b :: bs) i buf = (buf2, .ok ())) :
    sA ≤ addr ∧ addr ≤ eA := by
  simp only [writeRecordLoop] at h
  split at h
  · injection h with h1 h2
    exact Except.noConfusion h2
  · rename_i hc
    push_neg at hc
    omega

theorem writeRecordLoop_ok_getElem (sA eA : Nat) (ofst : Int) (addr : Nat) (data : List Nat) :
    ∀ (i : Int) (buf buf2 : List Nat),
    writeRecordLoop sA eA ofst addr data i buf = (buf2, .ok ()) →
    ∀ p : Nat,
      buf2[p]? = override (segByteAt ((addr : Int) - ofst + i) data p) (buf[p]?) := by
  induction data with
  | nil =>
    intro i buf buf2 h p
    injection h with h1 h2
    subst h1
    simp only [segByteAt]
    rw [if_neg (by simp only [List.length_nil]; push_cast; omega)]
    rfl
  | cons b bs ih =>
    intro i buf buf2 h p
    simp only [writeRecordLoop] at h
    split at h
    · injection h with h1 h2
      exact Except.noConfusion h2
    · cases hsa : setAt buf ((addr : Int) - ofst + i) b with
      | error e =>
        rw [hsa] at h
        injection h with h1 h2
        exact Except.noConfusion h2
      | ok bufM =>
        rw [hsa] at h
        obtain ⟨hge, hlt, hbm⟩ := setAt_ok _ _ _ _ hsa
        subst hbm
        have hrec := ih (i + 1) _ buf2 h p
        have harith : (addr : Int) - ofst + (i + 1) = ((addr : Int) - ofst + i) + 1 := by ring
        rw [harith] at hrec
        rw [hrec, segByteAt_cons]
        by_cases hp : (p : Int) = (addr : Int) - ofst + i
        · rw [if_pos hp]
          have hseg : segByteAt ((addr : Int) - ofst + i + 1) bs p = none := by
            simp only [segByteAt]
            rw [if_neg (by omega)]
          rw [hseg]
          have hpn : p = ((addr : Int) - ofst + i).toNat := by omega
          subst hpn
          rw [List.getElem?_set_self (by omega)]
          rfl
        · rw [if_neg hp]
          cases hseg : segByteAt ((addr : Int) - ofst + i + 1) bs p with
          | some v => simp only [override]
          | none =>
            simp only [override]
            rw [List.getElem?_set_ne (by omega)]

theorem makePaddedBytesLoop_length (sA eA : Nat) (ofst : Int) (recs : List dataRecord) :
    ∀ buf, ((makePaddedBytesLoop sA eA ofst recs buf).1).length = buf.length := by
  induction recs with
  | nil => intro buf; rfl
  | cons r rs ih =>
    intro buf
    simp only [makePaddedBytesLoop]
    have hw := writeRecordLoop_length sA eA ofst r.address r.data 0 buf
    cases hwr : writeRecordLoop sA eA ofst r.address r.data 0 buf with
    | mk bufM res =>
      rw [hwr] at hw
      cases res with
      | ok u => rw [ih bufM]; exact hw
      | error e => exact hw

theorem makePaddedBytesLoop_ok_getElem (sA eA : Nat) (ofst : Int) (recs : List dataRecord) :
    ∀ (buf buf2 : List Nat),
    makePaddedBytesLoop sA eA ofst recs buf = (buf2, .ok ()) →
    ∀ p : Nat, buf2[p]? = override (lastCoverByte ofst p recs) (buf[p]?) := by
  induction recs with
  | nil =>
    intro buf buf2 h p
    injection h with h1 h2
    subst h1
    rfl
  | cons r rs ih =>
    intro buf buf2 h p
    simp only [makePaddedBytesLoop] at h
    cases hwr : writeRecordLoop sA eA ofst r.address r.data 0 buf with
    | mk bufM res =>
      rw [hwr] at h
      cases res with
      | error e =>
        injection h with h1 h2
        exact Except.noConfusion h2
      | ok u =>
        cases u
        have h1 := writeRecordLoop_ok_getElem sA eA ofst r.address r.data 0 buf bufM hwr p
        have h2 := ih bufM buf2 h p
        rw [h2, h1, override_assoc]
        simp only [lastCoverByte, recByteAt, add_zero]

theorem makePaddedBytesLoop_ok_range (sA eA : Nat) (ofst : Int) (recs : List dataRecord) :
    ∀ (buf buf2 : List Nat),
    makePaddedBytesLoop sA eA ofst recs buf = (buf2, .ok ()) →
    ∀ r ∈ recs, r.data ≠ [] → sA ≤ r.address ∧ r.address ≤ eA := by
  induction recs with
  | nil =>
    intro buf buf2 h r hr
    exact absurd hr (List.not_mem_nil r)
  | cons r0 rs ih =>
    intro buf buf2 h r hr hnd
    simp only [makePaddedBytesLoop] at h
    cases hwr : writeRecordLoop sA eA ofst r0.address r0.data 0 buf with
    | mk bufM res =>
      rw [hwr] at h
      cases res with
      | error e =>
        injection h with h1 h2
        exact Except.noConfusion h2
      | ok u =>
        cases u
        rcases List.mem_cons.mp hr with heq | hmem
        · subst heq
          cases hd : r.data with
          | nil => exact absurd hd hnd
          | cons b bs =>
            rw [hd] at hwr
            exact writeRecordLoop_ok_range sA eA ofst r.address b bs 0 buf bufM hwr
        · exact ih bufM buf2 h r hmem hnd

theorem override_none_right {α : Type} (a : Option α) : override a none = a := by
  cases a <;> rfl

theorem lastCoverByte_append (ofst : Int) (p : Nat) (l1 l2 : List dataRecord) :
    lastCoverByte ofst p (l1 ++ l2) =
      override (lastCoverByte ofst p l2) (lastCoverByte ofst p l1) := by
  induction l1 with
  | nil => simp [lastCoverByte, override_none_right]
  | cons r rs ih => simp [lastCoverByte, ih, override_assoc]

theorem lastCoverByte_none (ofst : Int) (p : Nat) (recs : List dataRecord)
    (h : ∀ r ∈ recs, recByteAt ofst r p = none) : lastCoverByte ofst p recs = none := by
  induction recs with
  | nil => rfl
  | cons r rs ih =>
    simp only [lastCoverByte]
    rw [ih (fun r2 hr2 => h r2 (List.mem_cons_of_mem r hr2)), h r (List.mem_cons_self r rs)]
    rfl

/-! Decomposition of a successful `ParseFile`, list-order helpers, and the
assembled-buffer characterization. -/

theorem isDataRecordExists_ok (s : Srec) (u : Unit) (h : isDataRecordExists s = .ok u) :
    s.dataRecords ≠ [] := by
  simp only [isDataRecordExists] at h
  split at h
  · exact Except.noConfusion h
  · rename_i hc
    exact fun hnil => hc (by rw [hnil]; rfl)

theorem headD_mem (l : List dataRecord) (hne : l ≠ []) : l.headD default ∈ l := by
  cases l with
  | nil => exact absurd rfl hne
  | cons a t => simp

theorem getLastD_mem (l : List dataRecord) (hne : l ≠ []) : l.getLastD default ∈ l := by
  rw [List.getLastD_eq_getLast?]
  cases hgl : l.getLast? with
  | none => exact absurd (List.getLast?_eq_none_iff.mp hgl) hne
  | some x => exact List.mem_of_getLast?_eq_some hgl

theorem addrs_head_le_last (l : List dataRecord) (hne : l ≠ [])
    (h : addrsNonDecreasing l = true) :
    (l.headD default).address ≤ (l.getLastD default).address := by
  induction l with
  | nil => exact absurd rfl hne
  | cons a t ih =>
    cases t with
    | nil => simp [List.getLastD]
    | cons b t2 =>
      simp only [addrsNonDecreasing, Bool.and_eq_true, decide_eq_true_eq] at h
      obtain ⟨hab, hrest⟩ := h
      have hbt := ih (List.cons_ne_nil b t2) hrest
      simp only [List.headD_cons] at hbt ⊢
      rw [List.getLastD_cons]
      calc a.address ≤ b.address := hab
        _ ≤ ((b :: t2).getLastD default).address := by
            rw [List.getLastD_cons] at hbt ⊢
            exact hbt
        _ = ((b :: t2).getLastD a).address := by rw [List.getLastD_cons, List.getLastD_cons]

theorem ParseFile_ok_decomp (srs0 : Srec) (lines : List (List Char))
    (h : (ParseFile srs0 lines).2 = .ok ()) :
    ∃ s1,
      parseLines srs0 lines = (s1, .ok ()) ∧
      s1.dataRecords ≠ [] ∧
      (ParseFile srs0 lines).1.dataRecords = s1.dataRecords ∧
      (ParseFile srs0 lines).1.startAddress = getStartAddr s1 ∧
      (ParseFile srs0 lines).1.endAddress = getEndAddr s1 ∧
      (ParseFile srs0 lines).1.dataBytes =
        (makePaddedBytesLoop (getStartAddr s1) (getEndAddr s1) ((getStartAddr s1 : Nat) : Int)
          s1.dataRecords
          (s1.dataBytes ++ List.replicate
            ((u32sub (getEndAddr s1) (getStartAddr s1) + getLastRecordDataLen s1) % u32) 0xFF)).1 ∧
      (makePaddedBytesLoop (getStartAddr s1) (getEndAddr s1) ((getStartAddr s1 : Nat) : Int)
          s1.dataRecords
          (s1.dataBytes ++ List.replicate
            ((u32sub (getEndAddr s1) (getStartAddr s1) + getLastRecordDataLen s1) % u32) 0xFF)).2
        = .ok () := by
  unfold ParseFile at h ⊢
  split at h
  · exact Except.noConfusion h
  · rename_i s u heq
    cases u
    rw [heq]
    split at h
    · exact Except.noConfusion h
    · rename_i u2 heq2
      cases u2
      split at h
      · exact Except.noConfusion h
      · rename_i u3 heq3
        cases u3
        exact ⟨s, rfl, isDataRecordExists_ok s () heq2, rfl, rfl, rfl, rfl, h⟩

theorem ParseFile_NewSrec_ok (lines : List (List Char))
    (h : (ParseFile NewSrec lines).2 = .ok ()) :
    ∃ s1,
      parseLines NewSrec lines = (s1, .ok ()) ∧
      s1.dataRecords ≠ [] ∧
      (ParseFile NewSrec lines).1.dataRecords = s1.dataRecords ∧
      (ParseFile NewSrec lines).1.startAddress = getStartAddr s1 ∧
      (ParseFile NewSrec lines).1.endAddress = getEndAddr s1 ∧
      (∀ r ∈ s1.dataRecords, r.address < u32) ∧
      (∀ r ∈ s1.dataRecords, r.data ≠ [] →
        getStartAddr s1 ≤ r.address ∧ r.address ≤ getEndAddr s1) ∧
      (Bytes (ParseFile NewSrec lines).1).length =
        (u32sub (getEndAddr s1) (getStartAddr s1) + getLastRecordDataLen s1) % u32 ∧
      (∀ p : Nat, (Bytes (ParseFile NewSrec lines).1)[p]? =
        override (lastCoverByte ((getStartAddr s1 : Nat) : Int) p s1.dataRecords)
          (if p < (Bytes (ParseFile NewSrec lines).1).length then some 0xFF else none)) := by
  obtain ⟨s1, hpl, hne, hrec, hsa, hea, hbytes, hloopok⟩ := ParseFile_ok_decomp NewSrec lines h
  obtain ⟨hdb, hbound⟩ := parseLines_ok_state lines NewSrec s1 hpl
  have hdbnil : s1.dataBytes = [] := hdb
  have hbound2 : ∀ r ∈ s1.dataRecords, r.address < u32 := by
    intro r hr
    rcases hbound r hr with hin | hlt
    · exact absurd hin (List.not_mem_nil r)
    · exact hlt
  have hloop_eq : makePaddedBytesLoop (getStartAddr s1) (getEndAddr s1)
      ((getStartAddr s1 : Nat) : Int) s1.dataRecords
      (s1.dataBytes ++ List.replicate
        ((u32sub (getEndAddr s1) (getStartAddr s1) + getLastRecordDataLen s1) % u32) 0xFF) =
      ((makePaddedBytesLoop (getStartAddr s1) (getEndAddr s1)
        ((getStartAddr s1 : Nat) : Int) s1.dataRecords
        (s1.dataBytes ++ List.replicate
          ((u32sub (getEndAddr s1) (getStartAddr s1) + getLastRecordDataLen s1) % u32) 0xFF)).1,
        .ok ()) := by
    have hp : ∀ x : List Nat × Except GoErr Unit, x.2 = .ok () → x = (x.1, .ok ()) := by
      intro x hx
      cases x with
      | mk a b => simp only at hx; rw [hx]
    exact hp _ hloopok
  have hrange := makePaddedBytesLoop_ok_range (getStartAddr s1) (getEndAddr s1)
    ((getStartAddr s1 : Nat) : Int) s1.dataRecords _ _ hloop_eq
  have hlen : (Bytes (ParseFile NewSrec lines).1).length =
      (u32sub (getEndAddr s1) (getStartAddr s1) + getLastRecordDataLen s1) % u32 := by
    simp only [Bytes]
    rw [hbytes, makePaddedBytesLoop_length, hdbnil, List.nil_append, List.length_replicate]
  refine ⟨s1, hpl, hne, hrec, hsa, hea, hbound2, hrange, hlen, fun p => ?_⟩
  have hg := makePaddedBytesLoop_ok_getElem (getStartAddr s1) (getEndAddr s1)
    ((getStartAddr s1 : Nat) : Int) s1.dataRecords _ _ hloop_eq p
  rw [hlen]
  simp only [Bytes]
  rw [hbytes, hg, hdbnil, List.nil_append, List.getElem?_replicate]

/-- Claim C3: after a successful parse of a file with non-decreasing
data-record addresses (and no `uint32` overflow of the size formula,
which Go's arithmetic would wrap), the assembled buffer length equals
`endAddress - startAddress + lastRecordDataLength`, where the start and
end addresses are the first and last records' addresses in file order and
the last length is the last record's data byte count. -/
theorem claim_C3_buffer_length (lines : List (List Char))
    (h : (ParseFile NewSrec lines).2 = .ok ())
    (hasc : addrsNonDecreasing ((ParseFile NewSrec lines).1.dataRecords) = true)
    (hov : getEndAddr (ParseFile NewSrec lines).1 - getStartAddr (ParseFile NewSrec lines).1 +
        getLastRecordDataLen (ParseFile NewSrec lines).1 < u32) :
    (Bytes (ParseFile NewSrec lines).1).length =
      getEndAddr (ParseFile NewSrec lines).1 - getStartAddr (ParseFile NewSrec lines).1 +
        getLastRecordDataLen (ParseFile NewSrec lines).1 := by
  obtain ⟨s1, hpl, hne, hrec, hsa, hea, hbound, hrange, hlen, hget⟩ := ParseFile_NewSrec_ok lines h
  have hgs : getStartAddr (ParseFile NewSrec lines).1 = getStartAddr s1 := by
    simp only [getStartAddr, hrec]
  have hge : getEndAddr (ParseFile NewSrec lines).1 = getEndAddr s1 := by
    simp only [getEndAddr, hrec]
  have hgl : getLastRecordDataLen (ParseFile NewSrec lines).1 = getLastRecordDataLen s1 := by
    simp only [getLastRecordDataLen, hrec]
  rw [hgs, hge, hgl] at hov ⊢
  rw [hrec] at hasc
  have hle : (s1.dataRecords.headD default).address ≤
      (s1.dataRecords.getLastD default).address :=
    addrs_head_le_last s1.dataRecords hne hasc
  have hsb : getStartAddr s1 < u32 := hbound _ (headD_mem s1.dataRecords hne)
  have heb : getEndAddr s1 < u32 := hbound _ (getLastD_mem s1.dataRecords hne)
  rw [hlen]
  simp only [getStartAddr, getEndAddr] at *
  simp only [u32sub, u32] at *
  omega

/-- Witness for claim C3 at the two-record file `fileGap`. -/
theorem claim_C3_witness :
    (Bytes (ParseFile NewSrec fileGap).1).length =
      getEndAddr (ParseFile NewSrec fileGap).1 - getStartAddr (ParseFile NewSrec fileGap).1 +
        getLastRecordDataLen (ParseFile NewSrec fileGap).1 :=
  claim_C3_buffer_length fileGap rfl (by decide) (by decide)

/-- Claim C5: after a successful parse, every buffer position not covered
by any data record's range `[address - startAddress,
address - startAddress + len(data) - 1]` holds the sentinel byte `0xFF`. -/
theorem claim_C5_uncovered_is_sentinel (lines : List (List Char)) (p : Nat)
    (h : (ParseFile NewSrec lines).2 = .ok ())
    (hp : p < (Bytes (ParseFile NewSrec lines).1).length)
    (hunc : ∀ r ∈ (ParseFile NewSrec lines).1.dataRecords,
      ¬ ((r.address : Int) - ((ParseFile NewSrec lines).1.startAddress : Int) ≤ (p : Int) ∧
         (p : Int) < (r.address : Int) - ((ParseFile NewSrec lines).1.startAddress : Int) +
           (r.data.length : Int))) :
    (Bytes (ParseFile NewSrec lines).1)[p]? = some 0xFF := by
  obtain ⟨s1, hpl, hne, hrec, hsa, hea, hbound, hrange, hlen, hget⟩ := ParseFile_NewSrec_ok lines h
  have hnone : lastCoverByte ((getStartAddr s1 : Nat) : Int) p s1.dataRecords = none := by
    apply lastCoverByte_none
    intro r hr
    have hcond := hunc r (by rw [hrec]; exact hr)
    rw [hsa] at hcond
    simp only [recByteAt, segByteAt]
    rw [if_neg hcond]
  rw [hget p, hnone]
  simp only [override]
  rw [if_pos hp]

/-- Witness for claim C5: position 1 of the `fileGap` image (the gap
between the records at addresses 0 and 2) is `0xFF`. -/
theorem claim_C5_witness :
    (Bytes (ParseFile NewSrec fileGap).1)[1]? = some 0xFF :=
  claim_C5_uncovered_is_sentinel fileGap 1 rfl (by decide) (by decide)

/-- Internal helper shared by the overwrite claims: after a successful
parse, a buffer position covered by record `k` whose byte is not
overwritten by any LATER record holds record `k`'s byte. -/
theorem assembled_last_cover (lines : List (List Char)) (k : Nat) (rk : dataRecord) (i : Nat)
    (h : (ParseFile NewSrec lines).2 = .ok ())
    (hk : (ParseFile NewSrec lines).1.dataRecords[k]? = some rk)
    (hi : i < rk.data.length)
    (hnolater : lastCoverByte (((ParseFile NewSrec lines).1.startAddress : Nat) : Int)
        ((rk.address - (ParseFile NewSrec lines).1.startAddress) + i)
        ((ParseFile NewSrec lines).1.dataRecords.drop (k + 1)) = none) :
    (Bytes (ParseFile NewSrec lines).1)[
        (rk.address - (ParseFile NewSrec lines).1.startAddress) + i]? = rk.data[i]? := by
  obtain ⟨s1, hpl, hne, hrec, hsa, hea, hbound, hrange, hlen, hget⟩ := ParseFile_NewSrec_ok lines h
  rw [hrec] at hk
  rw [hrec, hsa] at hnolater
  rw [hsa]
  have hmem : rk ∈ s1.dataRecords := List.getElem?_mem hk
  have hnd : rk.data ≠ [] := by
    intro hd
    rw [hd] at hi
    simp at hi
  obtain ⟨hsle, _⟩ := hrange rk hmem hnd
  have hklen : k < s1.dataRecords.length := by
    by_contra hk2
    rw [List.getElem?_eq_none (by omega)] at hk
    exact Option.noConfusion hk
  have hgk : s1.dataRecords[k] = rk := (List.getElem?_eq_some_iff.mp hk).2
  have hsplit : s1.dataRecords =
      s1.dataRecords.take k ++ rk :: s1.dataRecords.drop (k + 1) := by
    have hd := List.drop_eq_getElem_cons hklen
    rw [hgk] at hd
    rw [← hd, List.take_append_drop]
  rw [hget ((rk.address - getStartAddr s1) + i)]
  rw [hsplit, lastCoverByte_append]
  simp only [lastCoverByte]
  rw [hnolater]
  have hcov : recByteAt ((getStartAddr s1 : Nat) : Int) rk
      ((rk.address - getStartAddr s1) + i) = rk.data[i]? := by
    simp only [recByteAt, segByteAt]
    rw [if_pos (by push_cast; omega)]
    congr 1
    omega
  rw [hcov]
  cases hgd : rk.data[i]? with
  | none =>
    rw [List.getElem?_eq_none_iff] at hgd
    omega
  | some v => simp only [override]

/-- Claim C4 (amended): after a successful assembly, for every data
record and every index `i < len(data)`, the buffer byte at offset
`(address - startAddress) + i` equals `data[i]` PROVIDED no later record
in file order also covers that buffer offset (assembly copies records in
file order, so a later overlapping record overwrites the byte — see the
counterexample). -/
theorem claim_C4_record_bytes (lines : List (List Char)) (j : Nat) (r : dataRecord) (i : Nat)
    (h : (ParseFile NewSrec lines).2 = .ok ())
    (hj : (ParseFile NewSrec lines).1.dataRecords[j]? = some r)
    (hi : i < r.data.length)
    (hnolater : lastCoverByte (((ParseFile NewSrec lines).1.startAddress : Nat) : Int)
        ((r.address - (ParseFile NewSrec lines).1.startAddress) + i)
        ((ParseFile NewSrec lines).1.dataRecords.drop (j + 1)) = none) :
    (Bytes (ParseFile NewSrec lines).1)[
        (r.address - (ParseFile NewSrec lines).1.startAddress) + i]? = r.data[i]? :=
  assembled_last_cover lines j r i h hj hi hnolater

/-- Witness for claim C4 (amended): the first record of `fileGap`
(no later record covers offset 0), whose byte `0xAA` is found at offset
`(0 - 0) + 0` of the image. -/
theorem claim_C4_witness :
    (Bytes (ParseFile NewSrec fileGap).1)[
        (recA.address - (ParseFile NewSrec fileGap).1.startAddress) + 0]? = recA.data[0]? :=
  claim_C4_record_bytes fileGap 0 recA 0 rfl (by decide) (by decide) (by decide)

/-- Claim C10: assembly copies data records into the buffer strictly in
file order, so when the ranges of two records `j < k` overlap at a buffer
offset covered by record `k` (and no record after `k` covers it), the
buffer byte equals the LATER record's byte. -/
theorem claim_C10_overlap_last_record_wins (lines : List (List Char)) (j k : Nat)
    (rj rk : dataRecord) (i : Nat)
    (h : (ParseFile NewSrec lines).2 = .ok ())
    (hjk : j < k)
    (hj : (ParseFile NewSrec lines).1.dataRecords[j]? = some rj)
    (hk : (ParseFile NewSrec lines).1.dataRecords[k]? = some rk)
    (hi : i < rk.data.length)
    (hoverlap : (rj.address : Int) - ((ParseFile NewSrec lines).1.startAddress : Int) ≤
        (((rk.address - (ParseFile NewSrec lines).1.startAddress) + i : Nat) : Int) ∧
        (((rk.address - (ParseFile NewSrec lines).1.startAddress) + i : Nat) : Int) <
          (rj.address : Int) - ((ParseFile NewSrec lines).1.startAddress : Int) +
            (rj.data.length : Int))
    (hnolater : lastCoverByte (((ParseFile NewSrec lines).1.startAddress : Nat) : Int)
        ((rk.address - (ParseFile NewSrec lines).1.startAddress) + i)
        ((ParseFile NewSrec lines).1.dataRecords.drop (k + 1)) = none) :
    (Bytes (ParseFile NewSrec lines).1)[
        (rk.address - (ParseFile NewSrec lines).1.startAddress) + i]? = rk.data[i]? :=
  assembled_last_cover lines k rk i h hk hi hnolater

/-- Witness for claim C10 at `fileOverlap`: offset 1 is covered by both
records, and holds the second record's byte `0xBB`. -/
theorem claim_C10_witness :
    (Bytes (ParseFile NewSrec fileOverlap).1)[
        (recOv2.address - (ParseFile NewSrec fileOverlap).1.startAddress) + 0]? =
      recOv2.data[0]? :=
  claim_C10_overlap_last_record_wins fileOverlap 0 1 recOv1 recOv2 0 rfl (by decide) (by decide)
    (by decide) (by decide) (by decide) (by decide)
